import Mathlib

/-!
# Compile-time checked `printf` format strings (`09.13-fixedString3/main.cpp`)

A shallow embedding of the program: the fixed string and its descriptor, the
type traits used by `match`, the specifier scan `get`, the fold `IsMatching`
and the three `print` overloads, followed by the properties proved of them.

Conventions of the embedding.
* A `char` array is a `List Char`; a string literal `s` denotes the array
  `s ++ [NUL]`.
* An iterator into a span is the index of the element it points at, `end`
  being the length of the span.
* A C++ type is a term of `CType`; the type traits are functions on it.
* Each `static_assert` of a body is evaluated on its own: `print_assertions`
  lists the diagnoses of all that fail, and `print` returns `Except.error`
  with the first of them in source order. A body that compiles returns the
  list of calls it makes to `printf`.
* A call `print(first, args...)` is resolved among the three overloads by
  `resolve`, which ranks the conversions of every argument and then orders
  the templates; `dispatch` compiles the body of the selected overload.
-/

set_option autoImplicit false

namespace FixedString3

/-! ## C++ types and the type traits of `<type_traits>` -/

/-- The cv-qualification of a type: `const` and `volatile`. -/
structure Qual where
  isConst : Bool
  isVolatile : Bool
deriving DecidableEq, Repr

/-- No qualifier. -/
def Qual.none : Qual := ⟨false, false⟩

/-- Only `const`. -/
def Qual.const : Qual := ⟨true, false⟩

/-- Only `volatile`. -/
def Qual.volatile : Qual := ⟨false, true⟩

/-- The non-compound types: the fundamental types and, by name, class and
enumeration types. -/
inductive Builtin where
  | void
  | bool
  | char
  | signedChar
  | unsignedChar
  | wchar
  | short
  | unsignedShort
  | int
  | unsignedInt
  | long
  | unsignedLong
  | longLong
  | unsignedLongLong
  | float
  | double
  | longDouble
  | named (name : String)
deriving DecidableEq, Repr

/-- C++ types. A qualifier is kept where the language keeps it: on a
non-compound type and on a pointer. An array has the qualification of its
elements and a reference has none, so neither carries a qualifier of its
own. `extent` is `none` for an array of unknown bound. -/
inductive CType where
  | base (q : Qual) (b : Builtin)
  | ptr (q : Qual) (pointee : CType)
  | arr (extent : Option Nat) (elem : CType)
  | lref (t : CType)
  | rref (t : CType)
deriving DecidableEq, Repr

namespace CType

/-- The type `int`. -/
def int : CType := base Qual.none Builtin.int

/-- The type `char`. -/
def char : CType := base Qual.none Builtin.char

/-- The type `double`. -/
def double : CType := base Qual.none Builtin.double

/-- The type `const char`. -/
def constChar : CType := base Qual.const Builtin.char

/-- The type `char*`. -/
def charPtr : CType := ptr Qual.none char

/-- The type `const char*`. -/
def constCharPtr : CType := ptr Qual.none constChar

end CType

/-- The trait `std::remove_reference_t`. -/
def remove_reference_t : CType → CType
  | CType.lref t => t
  | CType.rref t => t
  | t => t

/-- The trait `std::remove_cv_t`: drops the top-level qualifiers; those of an
array are the qualifiers of its elements. -/
def remove_cv_t : CType → CType
  | CType.base _ b => CType.base Qual.none b
  | CType.ptr _ p => CType.ptr Qual.none p
  | CType.arr n e => CType.arr n (remove_cv_t e)
  | CType.lref t => CType.lref t
  | CType.rref t => CType.rref t

/-- The trait `std::remove_const_t`. -/
def remove_const_t : CType → CType
  | CType.base q b => CType.base ⟨false, q.isVolatile⟩ b
  | CType.ptr q p => CType.ptr ⟨false, q.isVolatile⟩ p
  | CType.arr n e => CType.arr n (remove_const_t e)
  | CType.lref t => CType.lref t
  | CType.rref t => CType.rref t

/-- The trait `std::remove_cvref_t`. -/
def remove_cvref_t (T : CType) : CType :=
  remove_cv_t (remove_reference_t T)

/-- The trait `std::remove_all_extents_t`. -/
def remove_all_extents_t : CType → CType
  | CType.arr _ e => remove_all_extents_t e
  | t => t

/-- The trait `std::is_array_v`. -/
def is_array_v : CType → Bool
  | CType.arr _ _ => true
  | _ => false

/-- The trait `std::is_pointer_v`: true of a pointer type, qualified or not. -/
def is_pointer_v : CType → Bool
  | CType.ptr _ _ => true
  | _ => false

/-- The trait `std::is_same_v`. -/
def is_same_v (T U : CType) : Bool :=
  decide (T = U)

/-- The helper `plain_same_v<T, U>` of the source. -/
def plain_same_v (T U : CType) : Bool :=
  is_same_v (remove_cvref_t T) (remove_cvref_t U)

/-- The function `match<T>(c)` of the source: the specifier to type table. -/
def match_ (T : CType) (c : Char) : Bool :=
  if c = 'd' then plain_same_v CType.int T
  else if c = 'c' then plain_same_v CType.char T
  else if c = 'f' then plain_same_v CType.double T
  else if c = 's' then
    (plain_same_v CType.char (remove_all_extents_t T) && is_array_v T) ||
      (plain_same_v CType.charPtr (remove_all_extents_t T) && is_pointer_v T)
  else false

/-! ## The fixed string and its descriptor -/

/-- The terminator that ends the array of a string literal. -/
def NUL : Char := Char.ofNat 0

/-- The array a string literal with the characters `s` denotes: `s` and the
terminator, `N = s.length + 1` elements. -/
def literal (s : List Char) : List Char :=
  s ++ [NUL]

/-- The algorithm `std::copy_n(str, N, data)` for `N = str.length`: element
after element is written to the destination. -/
def copy_n : List Char → List Char
  | [] => []
  | c :: rest => c :: copy_n rest

/-- The class `fixed_string<CharT, N>`: the member `data`, an array of `N`
elements, `N` being `data.length`. -/
structure fixed_string where
  data : List Char
deriving DecidableEq, Repr

/-- The constructor `fixed_string(const CharT (&str)[N])`. -/
def fixed_string.ctor (str : List Char) : fixed_string :=
  ⟨copy_n str⟩

/-- The algorithm `std::ranges::count(r, value)`: one pass over the range
that adds one for each element equal to `value`. -/
def ranges_count (r : List Char) (value : Char) : Nat :=
  r.foldl (fun n c => if c = value then n + 1 else n) 0

/-- The class template `FormatString<Str>`: the template argument. -/
structure FormatString where
  Str : fixed_string
deriving DecidableEq, Repr

/-- The static member `fmt`. -/
def FormatString.fmt (F : FormatString) : fixed_string :=
  F.Str

/-- The static member `numArgs`. -/
def FormatString.numArgs (F : FormatString) : Nat :=
  ranges_count F.fmt.data '%'

/-- The conversion `operator const auto*()`: the characters the returned
pointer points at. -/
def FormatString.toPointer (F : FormatString) : List Char :=
  F.fmt.data

/-- The literal operator `operator"" _fs` applied to the literal `s`. -/
def operator_fs (s : List Char) : FormatString :=
  ⟨fixed_string.ctor (literal s)⟩

/-! ## The specifier scan -/

deriving instance DecidableEq for Except

/-- The loop of `std::ranges::find(first, last, '%')` with `n = last - first`
elements left: the index of the first element from `first` on that holds a
percent sign, and `last` when there is none. -/
def findLoop (str : List Char) : Nat → Nat → Nat
  | 0, first => first
  | n + 1, first =>
    if str[first]? = some '%' then first else findLoop str n (first + 1)

/-- The call `std::ranges::find(first, last, '%')`, for `first ≤ last`. -/
def find (str : List Char) (first last : Nat) : Nat :=
  findLoop str (last - first) first

/-- What makes an evaluation of `get` undefined, and so not a constant
expression: the iterator is moved beyond `end`, or `end` is read. -/
inductive ScanFault where
  | incrementPastEnd
  | dereferenceEnd
deriving DecidableEq, Repr

/-- The loop of `get` with `n` rounds left and the iterator at `start`: each
round finds the next percent sign and steps over it. The source has no test
of `find` returning `end`; the increment is then undefined. -/
def scanLoop (str : List Char) : Nat → Nat → Except ScanFault Nat
  | 0, start => Except.ok start
  | n + 1, start =>
    let found := find str start str.length
    if found = str.length then Except.error ScanFault.incrementPastEnd
    else scanLoop str n (found + 1)

/-- The function `get<I>(str)` of the source: `I + 1` rounds for `0 ≤ I`, no
round for a negative `I`, then the read of `*start`. -/
def get (I : Int) (str : List Char) : Except ScanFault Char :=
  match scanLoop str (I + 1).toNat 0 with
  | Except.error e => Except.error e
  | Except.ok start =>
    match str[start]? with
    | some c => Except.ok c
    | none => Except.error ScanFault.dereferenceEnd

/-- The fold `(match<Ts>(get<I>(str)) && ...)` from the index `I` on: the
operands are evaluated left to right and the first false one ends it. -/
def foldMatching (str : List Char) : Nat → List CType → Except ScanFault Bool
  | _, [] => Except.ok true
  | I, T :: Ts =>
    match get (Int.ofNat I) str with
    | Except.error e => Except.error e
    | Except.ok c => if match_ T c then foldMatching str (I + 1) Ts else Except.ok false

/-- The function `IsMatching<CharT, Ts...>(str)` of the source. -/
def IsMatching (str : List Char) (Ts : List CType) : Except ScanFault Bool :=
  foldMatching str 0 Ts

/-! ## The three overloads of `print` -/

/-- The ways a call of `print` fails to compile. -/
inductive Diagnosis where
  /-- The assertion `fmt.numArgs == sizeof...(Ts)` is false. -/
  | ArgumentCountMismatch
  /-- The assertion on `IsMatching` is false. -/
  | SpecifierTypeMismatch
  /-- The operand of the assertion on `IsMatching` is no constant expression. -/
  | NotConstant (fault : ScanFault)
  /-- The assertion on `always_false_v`, with its message. -/
  | UncheckedLiteralMisuse (message : String)
deriving DecidableEq, Repr

/-- One argument of a call: the element `T` of the pack `Ts` that stands for it
and the object passed. -/
structure Arg (V : Type) where
  T : CType
  value : V

/-- Template argument deduction for a parameter `const Ts&` from an argument
expression of type `A`: the top-level `const` is dropped. -/
def deduce (A : CType) : CType :=
  remove_const_t (remove_reference_t A)

/-- The argument made of an expression of type `A` with value `v`. -/
def Arg.ofExpr {V : Type} (A : CType) (v : V) : Arg V :=
  ⟨deduce A, v⟩

/-- A call of the formatting primitive `printf`: the characters the first
argument points at, and the other arguments. -/
structure PrintfCall (V : Type) where
  format : List Char
  args : List (Arg V)

/-- The pack `Ts` of a call. -/
def packTypes {V : Type} (ts : List (Arg V)) : List CType :=
  ts.map Arg.T

/-- The diagnoses of the assertions of the overload `print(auto fmt, const
Ts&... ts)` that fail, in source order. The two are separate declarations:
the operand of the second is evaluated whatever the first one gives. -/
def print_assertions {V : Type} (fmt : FormatString) (ts : List (Arg V)) : List Diagnosis :=
  (if fmt.numArgs = (packTypes ts).length then [] else [Diagnosis.ArgumentCountMismatch]) ++
    match IsMatching fmt.fmt.data (packTypes ts) with
    | Except.ok true => []
    | Except.ok false => [Diagnosis.SpecifierTypeMismatch]
    | Except.error e => [Diagnosis.NotConstant e]

/-- The overload `print(auto fmt, const Ts&... ts)` for a descriptor: the call
of `printf` when both assertions hold, else the diagnosis of the first
assertion in source order that fails (`print_assertions` has them all). -/
def print {V : Type} (fmt : FormatString) (ts : List (Arg V)) :
    Except Diagnosis (List (PrintfCall V)) :=
  if fmt.numArgs = (packTypes ts).length then
    match IsMatching fmt.fmt.data (packTypes ts) with
    | Except.ok true => Except.ok [⟨fmt.toPointer, ts⟩]
    | Except.ok false => Except.error Diagnosis.SpecifierTypeMismatch
    | Except.error e => Except.error (Diagnosis.NotConstant e)
  else Except.error Diagnosis.ArgumentCountMismatch

/-- The form of the first argument of a call of `print`: a descriptor object,
a mutable buffer (an lvalue of type `char[N]`) with its contents, a raw
string literal (an lvalue of type `const char[N]`) with its characters. -/
inductive FirstArg where
  | descriptor (fmt : FormatString)
  | buffer (s : List Char)
  | rawLiteral (s : List Char)

/-- A further argument expression of a call: its type (an expression has no
reference type), whether it is an lvalue, and the object it denotes. -/
structure ArgExpr (V : Type) where
  type : CType
  isLvalue : Bool
  value : V

/-- The trait `std::is_const_v`: the top-level `const`; that of an array is
the one of its elements. -/
def is_const_v : CType → Bool
  | CType.base q _ => q.isConst
  | CType.ptr q _ => q.isConst
  | CType.arr _ e => is_const_v e
  | CType.lref _ => false
  | CType.rref _ => false

/-- An lvalue of a `const` type, such as a string literal. -/
def ArgExpr.isConstLvalue {V : Type} (e : ArgExpr V) : Bool :=
  e.isLvalue && is_const_v e.type

/-- The three function templates named `print`, in source order:
`print(auto fmt, const Ts&...)`, `print(char* s, const Ts&...)` and
`print(const char* s, Ts&&...)`. -/
inductive Overload where
  | checked
  | buffer
  | rawLiteral
deriving DecidableEq, Repr

/-- The implicit conversion of the first argument to the first parameter of an
overload, ranked (less is better), `none` when there is no conversion.
A descriptor is copied into `auto fmt` (identity), reaches `const char*` only
through its conversion function (a user-defined conversion) and never
`char*`. A `char[N]` decays to `char*` for `auto` and for `char*` and needs a
qualification conversion for `const char*`. A `const char[N]` decays to
`const char*` for `auto` and for `const char*` and does not convert to
`char*`. -/
def firstArgRank : FirstArg → Overload → Option Nat
  | FirstArg.descriptor _, Overload.checked => some 0
  | FirstArg.descriptor _, Overload.buffer => none
  | FirstArg.descriptor _, Overload.rawLiteral => some 2
  | FirstArg.buffer _, Overload.checked => some 0
  | FirstArg.buffer _, Overload.buffer => some 0
  | FirstArg.buffer _, Overload.rawLiteral => some 1
  | FirstArg.rawLiteral _, Overload.checked => some 0
  | FirstArg.rawLiteral _, Overload.buffer => none
  | FirstArg.rawLiteral _, Overload.rawLiteral => some 0

/-- The reference binding of a further argument to the pack parameter of an
overload, ranked (less is better). For an lvalue of a `const` type `Ts&&`
and `const Ts&` are the same reference. For an rvalue `Ts&&` is an rvalue
reference, which is the better binding, and for another lvalue it is a
reference to a less qualified type, which is the better binding. -/
def packArgRank {V : Type} (e : ArgExpr V) : Overload → Nat
  | Overload.rawLiteral => 0
  | _ => if e.isConstLvalue then 0 else 1

/-- The partial ordering of the templates for a call with `n` further
arguments: `first` is more specialised than `second`. A first parameter
`char*` or `const char*` is more specialised than `auto`; of the pack
parameters `const Ts&` is more specialised than `Ts&&`; a parameter counts
only when the call has an argument for it. -/
def moreSpecialized (n : Nat) : Overload → Overload → Bool
  | Overload.buffer, Overload.checked => true
  | Overload.rawLiteral, Overload.checked => decide (n = 0)
  | Overload.buffer, Overload.rawLiteral => decide (0 < n)
  | _, _ => false

/-- The overload `o1` is a better candidate than `o2`: no conversion of `o1` is
worse, and one is better or else the template of `o1` is more specialised. -/
def better {V : Type} (first : FirstArg) (args : List (ArgExpr V)) (o1 o2 : Overload) : Bool :=
  match firstArgRank first o1, firstArgRank first o2 with
  | some r1, some r2 =>
    (decide (r1 ≤ r2) && args.all (fun e => decide (packArgRank e o1 ≤ packArgRank e o2))) &&
      ((decide (r1 < r2) || args.any (fun e => decide (packArgRank e o1 < packArgRank e o2))) ||
        moreSpecialized args.length o1 o2)
  | _, _ => false

/-- The overload `o` is viable and better than every other viable overload. -/
def isBest {V : Type} (first : FirstArg) (args : List (ArgExpr V)) (o : Overload) : Bool :=
  (firstArgRank first o).isSome &&
    [Overload.checked, Overload.buffer, Overload.rawLiteral].all
      (fun o2 => decide (o2 = o) || (firstArgRank first o2).isNone || better first args o o2)

/-- Overload resolution: the best viable overload, `none` for an ambiguous call. -/
def resolve {V : Type} (first : FirstArg) (args : List (ArgExpr V)) : Option Overload :=
  [Overload.checked, Overload.buffer, Overload.rawLiteral].find? (isBest first args)

/-- The characters the first argument points at once converted to a pointer. -/
def FirstArg.chars : FirstArg → List Char
  | FirstArg.descriptor fmt => fmt.toPointer
  | FirstArg.buffer s => s
  | FirstArg.rawLiteral s => literal s

/-- The characters that immediately follow each percent sign of `l`, left to
right. A percent sign that is the last element has no follower. -/
def specifiers : List Char → List Char
  | [] => []
  | c :: rest =>
    if c = '%' then
      match rest with
      | [] => []
      | d :: _ => d :: specifiers rest
    else specifiers rest

/-- The test of an element that is no percent sign. -/
def notPercent (c : Char) : Bool :=
  decide (c ≠ '%')

/-- The part of `l` behind its `k`-th percent sign, when it has that many. -/
def afterPercents : Nat → List Char → Option (List Char)
  | 0, l => some l
  | k + 1, l =>
    match l.dropWhile notPercent with
    | [] => none
    | _ :: t => afterPercents k t

/-- The result of the loop of `get` read off the list: it ends behind the
`k`-th percent sign, or moves beyond `end` when there are fewer. -/
def scanResult (total : Nat) : Option (List Char) → Except ScanFault Nat
  | none => Except.error ScanFault.incrementPastEnd
  | some t => Except.ok (total - t.length)

/-- The result of `get` read off the list behind the percent sign. -/
def readResult : Option (List Char) → Except ScanFault Char
  | none => Except.error ScanFault.incrementPastEnd
  | some [] => Except.error ScanFault.dereferenceEnd
  | some (c :: _) => Except.ok c

/-- The wording of the specification for the specifier `s`, first case: `T`
without reference and qualifiers is an array whose element type, all extents
removed, is `char`. -/
def isCharArray (T : CType) : Bool :=
  is_array_v (remove_cvref_t T) &&
    decide (remove_all_extents_t (remove_cvref_t T) = CType.char)

/-- The wording of the specification for the specifier `s`, second case: `T`
without reference and qualifiers is a pointer to `char`, qualified or not. -/
def isPointerToChar (T : CType) : Bool :=
  match remove_cvref_t T with
  | CType.ptr _ (CType.base _ Builtin.char) => true
  | _ => false

/-- The wording of the specification for the specifier `s`. -/
def specStringArgument (T : CType) : Bool :=
  isCharArray T || isPointerToChar T

/-- The positions of `l` that hold a percent sign. -/
def percentPositions (l : List Char) : List Nat :=
  (List.range l.length).filter (fun i => decide (l[i]? = some '%'))

/-! ## Lemmas on the count -/

theorem foldl_count_eq (r : List Char) (value : Char) (n : Nat) :
    r.foldl (fun n c => if c = value then n + 1 else n) n = n + r.count value := by
  induction r generalizing n with
  | nil => simp
  | cons c rest ih =>
    simp only [List.foldl_cons, ih, List.count_cons]
    by_cases h : c = value
    · subst h; simp; omega
    · have h2 : ¬ (c == value) = true := by simpa using h
      simp [h, h2]

theorem ranges_count_eq_count (r : List Char) (value : Char) :
    ranges_count r value = r.count value := by
  simp [ranges_count, foldl_count_eq]

theorem copy_n_eq (str : List Char) : copy_n str = str := by
  induction str with
  | nil => rfl
  | cons c rest ih => simp [copy_n, ih]

theorem NUL_ne_percent : NUL ≠ '%' := by decide

theorem operator_fs_data (s : List Char) : (operator_fs s).fmt.data = literal s := by
  simp [operator_fs, FormatString.fmt, fixed_string.ctor, copy_n_eq]

theorem numArgs_operator_fs (s : List Char) : (operator_fs s).numArgs = s.count '%' := by
  have h : (NUL == '%') = false := by decide
  simp [FormatString.numArgs, operator_fs_data, ranges_count_eq_count, literal,
    List.count_append, List.count_cons, h]

/-! ## Lemmas on the scan -/

theorem findLoop_append (a l : List Char) :
    findLoop (a ++ l) l.length a.length =
      a.length + (l.takeWhile notPercent).length := by
  induction l generalizing a with
  | nil => simp [findLoop]
  | cons c rest ih =>
    have hget : (a ++ c :: rest)[a.length]? = some c := by
      rw [List.getElem?_append_right (Nat.le_refl _)]; simp
    simp only [List.length_cons, findLoop, hget]
    by_cases hc : c = '%'
    · subst hc; simp [notPercent]
    · have hstep := ih (a ++ [c])
      simp only [List.append_assoc, List.singleton_append, List.length_append,
        List.length_singleton] at hstep
      simp [hc, hstep, List.takeWhile_cons, notPercent]
      omega

theorem find_append (a l : List Char) :
    find (a ++ l) a.length (a ++ l).length =
      a.length + (l.takeWhile notPercent).length := by
  have h : (a ++ l).length - a.length = l.length := by simp
  rw [find, h, findLoop_append]

theorem scanLoop_append (k : Nat) (a l : List Char) :
    scanLoop (a ++ l) k a.length = scanResult (a ++ l).length (afterPercents k l) := by
  induction k generalizing a l with
  | zero => simp [scanLoop, afterPercents, scanResult]
  | succ k ih =>
    have hsplit := List.takeWhile_append_dropWhile notPercent l
    simp only [scanLoop, find_append, afterPercents]
    cases hdw : l.dropWhile notPercent with
    | nil =>
      rw [hdw, List.append_nil] at hsplit
      rw [hsplit]
      simp [scanResult]
    | cons d t =>
      rw [hdw] at hsplit
      have hlen : l.length = (l.takeWhile notPercent).length + (t.length + 1) := by
        conv_lhs => rw [← hsplit]
        simp
      have hne : ¬ a.length + (l.takeWhile notPercent).length = (a ++ l).length := by
        simp only [List.length_append]; omega
      simp only [hne, if_false]
      have hstep := ih (a ++ l.takeWhile notPercent ++ [d]) t
      have heq : a ++ l.takeWhile notPercent ++ [d] ++ t = a ++ l := by
        conv_rhs => rw [← hsplit]
        simp
      rw [heq] at hstep
      simp only [List.length_append, List.length_singleton] at hstep
      simp only [List.length_append]
      exact hstep

theorem scanLoop_eq (k : Nat) (str : List Char) :
    scanLoop str k 0 = scanResult str.length (afterPercents k str) := by
  simpa using scanLoop_append k [] str

theorem afterPercents_suffix (k : Nat) (l t : List Char)
    (h : afterPercents k l = some t) : ∃ pre, l = pre ++ t := by
  induction k generalizing l with
  | zero =>
    simp only [afterPercents, Option.some.injEq] at h
    exact ⟨[], by simp [h]⟩
  | succ k ih =>
    have hsplit := List.takeWhile_append_dropWhile notPercent l
    simp only [afterPercents] at h
    cases hdw : l.dropWhile notPercent with
    | nil => rw [hdw] at h; simp at h
    | cons d t2 =>
      rw [hdw] at h hsplit
      obtain ⟨pre, hpre⟩ := ih t2 h
      refine ⟨l.takeWhile notPercent ++ d :: pre, ?_⟩
      conv_lhs => rw [← hsplit, hpre]
      simp

theorem get_eq_readResult (I : Nat) (str : List Char) :
    get (Int.ofNat I) str = readResult (afterPercents (I + 1) str) := by
  have hI : (Int.ofNat I + 1).toNat = I + 1 := by
    simp only [Int.ofNat_eq_coe]; omega
  simp only [get, hI, scanLoop_eq]
  cases hap : afterPercents (I + 1) str with
  | none => simp [scanResult, readResult]
  | some t =>
    obtain ⟨pre, hpre⟩ := afterPercents_suffix _ _ _ hap
    subst hpre
    have hidx : (pre ++ t).length - t.length = pre.length := by simp
    simp only [scanResult, hidx]
    rw [List.getElem?_append_right (Nat.le_refl _)]
    cases t with
    | nil => simp [readResult]
    | cons c rest => simp [readResult]

theorem specifiers_getElem_opt (l : List Char) (I : Nat) :
    (specifiers l)[I]? = (afterPercents (I + 1) l).bind List.head? := by
  induction l generalizing I with
  | nil => simp [specifiers, afterPercents]
  | cons c rest ih =>
    by_cases hc : c = '%'
    · subst hc
      have hdw : List.dropWhile notPercent ('%' :: rest) = '%' :: rest := by
        simp [List.dropWhile_cons, notPercent]
      cases rest with
      | nil =>
        cases I with
        | zero => simp [specifiers, afterPercents, hdw]
        | succ J => simp [specifiers, afterPercents, hdw]
      | cons d rest2 =>
        cases I with
        | zero => simp [specifiers, afterPercents, hdw]
        | succ J =>
          have hrec := ih J
          simp only [specifiers, if_true, List.getElem?_cons_succ]
          rw [afterPercents, hdw]
          exact hrec
    · have hdw : List.dropWhile notPercent (c :: rest) = List.dropWhile notPercent rest := by
        simp [List.dropWhile_cons, notPercent, hc]
      have hrec := ih I
      simp only [specifiers, hc, if_false]
      rw [afterPercents, hdw]
      rw [afterPercents] at hrec
      exact hrec

/-- The scan `get<I>` returns a character exactly when the `I`-th follower of a
percent sign exists, and then returns it. -/
theorem get_eq_ok_iff (I : Nat) (str : List Char) (c : Char) :
    get (Int.ofNat I) str = Except.ok c ↔ (specifiers str)[I]? = some c := by
  rw [get_eq_readResult, specifiers_getElem_opt]
  cases afterPercents (I + 1) str with
  | none => simp [readResult]
  | some t =>
    cases t with
    | nil => simp [readResult]
    | cons d rest => simp [readResult]

theorem afterPercents_append (pre t : List Char) :
    afterPercents (pre.count '%' + 1) (pre ++ '%' :: t) = some t := by
  induction pre with
  | nil => simp [afterPercents, List.dropWhile_cons, notPercent]
  | cons c rest ih =>
    by_cases hc : c = '%'
    · subst hc
      have hdw : List.dropWhile notPercent ('%' :: (rest ++ '%' :: t)) = '%' :: (rest ++ '%' :: t) := by
        simp [List.dropWhile_cons, notPercent]
      simp only [List.cons_append, List.count_cons_self]
      rw [afterPercents, hdw]
      exact ih
    · have hdw : List.dropWhile notPercent (c :: (rest ++ '%' :: t)) =
          List.dropWhile notPercent (rest ++ '%' :: t) := by
        simp [List.dropWhile_cons, notPercent, hc]
      have hcount : (c :: rest).count '%' = rest.count '%' := by
        simp [List.count_cons, hc]
      rw [hcount, List.cons_append, afterPercents, hdw]
      rw [afterPercents] at ih
      exact ih

theorem specifiers_percent_cons (d : Char) (rest : List Char) :
    specifiers ('%' :: d :: rest) = d :: specifiers (d :: rest) := by
  rw [specifiers]; simp

theorem specifiers_percent_nil : specifiers ['%'] = [] := by
  rw [specifiers]; simp

theorem specifiers_other_cons (c : Char) (rest : List Char) (hc : c ≠ '%') :
    specifiers (c :: rest) = specifiers rest := by
  simp only [specifiers, hc, if_false]

theorem count_other_cons (c : Char) (rest : List Char) (hc : c ≠ '%') :
    (c :: rest).count '%' = rest.count '%' := by
  have h2 : (c == '%') = false := by simpa using hc
  simp [List.count_cons, h2]

theorem specifiers_length_le (l : List Char) : (specifiers l).length ≤ l.count '%' := by
  induction l with
  | nil => simp [specifiers]
  | cons c rest ih =>
    by_cases hc : c = '%'
    · subst hc
      cases rest with
      | nil => simp [specifiers_percent_nil]
      | cons d rest2 =>
        rw [specifiers_percent_cons, List.count_cons_self, List.length_cons]
        omega
    · rw [specifiers_other_cons c rest hc, count_other_cons c rest hc]
      exact ih

theorem specifiers_literal_length (s : List Char) :
    (specifiers (literal s)).length = s.count '%' := by
  induction s with
  | nil => simp [specifiers, literal, NUL_ne_percent]
  | cons c rest ih =>
    by_cases hc : c = '%'
    · subst hc
      cases rest with
      | nil =>
        have h : literal ['%'] = '%' :: NUL :: [] := rfl
        rw [h, specifiers_percent_cons, specifiers_other_cons NUL [] NUL_ne_percent]
        simp [specifiers]
      | cons d rest2 =>
        have h : literal ('%' :: d :: rest2) = '%' :: d :: (rest2 ++ [NUL]) := rfl
        have h2 : literal (d :: rest2) = d :: (rest2 ++ [NUL]) := rfl
        rw [h, specifiers_percent_cons, List.count_cons_self, List.length_cons, ← h2, ih]
    · have h : literal (c :: rest) = c :: literal rest := rfl
      rw [h, specifiers_other_cons c _ hc, count_other_cons c rest hc]
      exact ih

/-! ## Lemmas on the fold -/

theorem foldMatching_cons_ok (str : List Char) (I : Nat) (T : CType) (Ts : List CType) (c : Char)
    (hget : get (Int.ofNat I) str = Except.ok c) :
    foldMatching str I (T :: Ts) =
      if match_ T c then foldMatching str (I + 1) Ts else Except.ok false := by
  rw [foldMatching, hget]

theorem foldMatching_false (str : List Char) (Ts : List CType) (I j : Nat) (c : Char) (T : CType)
    (hT : Ts[j]? = some T) (hget : get (Int.ofNat (I + j)) str = Except.ok c)
    (hm : match_ T c = false) :
    foldMatching str I Ts = Except.ok false := by
  induction Ts generalizing I j with
  | nil => simp at hT
  | cons U rest ih =>
    have hsome : (specifiers str)[I + j]? = some c := (get_eq_ok_iff _ _ _).1 hget
    cases j with
    | zero =>
      simp only [List.getElem?_cons_zero, Option.some.injEq] at hT
      subst hT
      rw [foldMatching_cons_ok str I U rest c hget, hm]
      rfl
    | succ k =>
      have hlt : I + (k + 1) < (specifiers str).length := by
        by_contra hcon
        rw [List.getElem?_eq_none (by omega)] at hsome
        simp at hsome
      have hI : I < (specifiers str).length := by omega
      have hget0 : get (Int.ofNat I) str = Except.ok ((specifiers str).get ⟨I, hI⟩) :=
        (get_eq_ok_iff _ _ _).2 (by simp [List.getElem?_eq_getElem hI])
      rw [foldMatching_cons_ok str I U rest _ hget0]
      by_cases hmu : match_ U ((specifiers str).get ⟨I, hI⟩) = true
      · rw [hmu, if_pos rfl]
        apply ih (I + 1) k
        · simpa using hT
        · have : I + 1 + k = I + (k + 1) := by omega
          rw [this]; exact hget
      · have hmf : match_ U ((specifiers str).get ⟨I, hI⟩) = false := by simpa using hmu
        rw [hmf]
        rfl

theorem numArgs_eq_count (fmt : FormatString) : fmt.numArgs = fmt.fmt.data.count '%' := by
  simp [FormatString.numArgs, ranges_count_eq_count]

theorem packTypes_length {V : Type} (ts : List (Arg V)) : (packTypes ts).length = ts.length := by
  simp [packTypes]

/-! ## The checked `print` -/

/-- With a number of arguments other than the number of percent signs of the
stored string, the count assertion fails: it is the first diagnosis. -/
theorem print_count_mismatch {V : Type} (fmt : FormatString) (ts : List (Arg V))
    (h : fmt.fmt.data.count '%' ≠ ts.length) :
    print fmt ts = Except.error Diagnosis.ArgumentCountMismatch ∧
      (print_assertions fmt ts).head? = some Diagnosis.ArgumentCountMismatch := by
  have hne : ¬ fmt.numArgs = (packTypes ts).length := by
    rw [numArgs_eq_count, packTypes_length]; exact h
  constructor
  · simp only [print, hne, if_false]
  · simp only [print_assertions, hne, if_false]
    rfl

/-- The result of `print` is the first of the diagnoses of `print_assertions`,
and the call of `printf` when there is none. -/
theorem print_eq_first_diagnosis {V : Type} (fmt : FormatString) (ts : List (Arg V)) :
    print fmt ts =
      match print_assertions fmt ts with
      | [] => Except.ok [⟨fmt.toPointer, ts⟩]
      | d :: _ => Except.error d := by
  by_cases hnum : fmt.numArgs = (packTypes ts).length
  · simp only [print, print_assertions, hnum, if_true, List.nil_append]
    cases IsMatching fmt.fmt.data (packTypes ts) with
    | error e => rfl
    | ok b => cases b <;> rfl
  · simp only [print, print_assertions, hnum, if_false]
    rfl

/-- C1, the code at the failing input `print("%s"_fs, "Hello", "World")`: one
percent sign and two arguments. The count assertion fails and is the first
diagnosis, but the second assertion is evaluated as well, and there the scan
`get<1>` finds no second percent sign and moves beyond the end of the data:
the rejection is not the count mismatch alone. -/
theorem print_count_mismatch_scan_leaves_data :
    (operator_fs "%s".toList).fmt.data.count '%' = 1 ∧
      get 1 (operator_fs "%s".toList).fmt.data = Except.error ScanFault.incrementPastEnd ∧
      IsMatching (operator_fs "%s".toList).fmt.data
          [CType.arr (some 6) CType.char, CType.arr (some 6) CType.char] =
        Except.error ScanFault.incrementPastEnd ∧
      print_assertions (operator_fs "%s".toList)
          [Arg.ofExpr (CType.arr (some 6) CType.constChar) "Hello",
           Arg.ofExpr (CType.arr (some 6) CType.constChar) "World"] =
        [Diagnosis.ArgumentCountMismatch, Diagnosis.NotConstant ScanFault.incrementPastEnd] ∧
      print (operator_fs "%s".toList)
          [Arg.ofExpr (CType.arr (some 6) CType.constChar) "Hello",
           Arg.ofExpr (CType.arr (some 6) CType.constChar) "World"] =
        Except.error Diagnosis.ArgumentCountMismatch :=
  ⟨by decide, by decide, by decide, by decide, rfl⟩

/-- C2: with as many arguments as percent signs, if at some position `I` the
scan `get<I>` returns a character that `match` refuses for the type at `I`,
then `IsMatching` is false and the checked `print` is rejected by the second
assertion. -/
theorem print_rejects_type_mismatch {V : Type} (fmt : FormatString) (ts : List (Arg V))
    (I : Nat) (T : CType) (c : Char)
    (hcount : fmt.fmt.data.count '%' = ts.length)
    (hT : (packTypes ts)[I]? = some T)
    (hget : get (Int.ofNat I) fmt.fmt.data = Except.ok c)
    (hm : match_ T c = false) :
    IsMatching fmt.fmt.data (packTypes ts) = Except.ok false ∧
      print fmt ts = Except.error Diagnosis.SpecifierTypeMismatch := by
  have hfold : IsMatching fmt.fmt.data (packTypes ts) = Except.ok false := by
    rw [IsMatching]
    exact foldMatching_false _ _ 0 I c T hT (by simpa using hget) hm
  refine ⟨hfold, ?_⟩
  have heq : fmt.numArgs = (packTypes ts).length := by
    rw [numArgs_eq_count, packTypes_length]; exact hcount
  simp only [print, heq, if_true, hfold]

/-- C2 at `print("%d"_fs, 3.14)`: a `double` argument for the specifier `d`. -/
theorem print_rejects_type_mismatch_witness :
    get (Int.ofNat 0) (operator_fs "%d".toList).fmt.data = Except.ok 'd' ∧
      match_ CType.double 'd' = false ∧
      IsMatching (operator_fs "%d".toList).fmt.data [CType.double] = Except.ok false ∧
      print (operator_fs "%d".toList) [Arg.ofExpr CType.double "3.14"] =
        Except.error Diagnosis.SpecifierTypeMismatch :=
  ⟨by decide, by decide,
    print_rejects_type_mismatch (operator_fs "%d".toList) [Arg.ofExpr CType.double "3.14"]
      0 CType.double 'd' (by decide) (by decide) (by decide) (by decide)⟩

/-- C4: when `chars` holds a percent sign at position `p` with exactly `I`
percent signs before it (so `0 ≤ I` and `p` is the position of the `(I+1)`-th
one counted from the left), and `p` is not the last position, `get<I>(chars)`
returns the element at position `p + 1`. Each percent sign counts for itself. -/
theorem get_returns_follower (chars : List Char) (I : Int) (p : Nat)
    (hp : chars[p]? = some '%')
    (hcount : ((chars.take p).count '%' : Int) = I)
    (hnext : p + 1 < chars.length) :
    get I chars = Except.ok (chars.get ⟨p + 1, hnext⟩) := by
  have hplt : p < chars.length := by omega
  have hpc : chars[p] = '%' := by
    rw [List.getElem?_eq_getElem hplt] at hp
    exact Option.some.inj hp
  have hsplit : chars = chars.take p ++ '%' :: chars.get ⟨p + 1, hnext⟩ :: chars.drop (p + 2) := by
    conv_lhs => rw [← List.take_append_drop p chars]
    rw [List.drop_eq_getElem_cons hplt, hpc, List.drop_eq_getElem_cons hnext]
    rfl
  have hIk : I = Int.ofNat ((chars.take p).count '%') := by
    rw [← hcount]; rfl
  have hafter : afterPercents ((chars.take p).count '%' + 1) chars =
      some (chars.get ⟨p + 1, hnext⟩ :: chars.drop (p + 2)) := by
    conv_lhs => rw [hsplit]
    have htake : List.take p (List.take p chars ++ '%' :: chars.get ⟨p + 1, hnext⟩ ::
        chars.drop (p + 2)) = chars.take p := by
      rw [← hsplit]
    rw [htake]
    exact afterPercents_append _ _
  rw [hIk, get_eq_readResult, hafter]
  rfl

/-- C4 at `"%%d"`: `get<0>` returns the second percent sign and `get<1>`
returns `d`. -/
theorem get_returns_follower_witness :
    get 0 (literal "%%d".toList) = Except.ok '%' ∧
      get 1 (literal "%%d".toList) = Except.ok 'd' :=
  ⟨get_returns_follower (literal "%%d".toList) 0 0 (by decide) (by decide) (by decide),
   get_returns_follower (literal "%%d".toList) 1 1 (by decide) (by decide) (by decide)⟩

/-! ## The table `match` -/

theorem plain_same_v_iff (T U : CType) :
    plain_same_v T U = true ↔ remove_cvref_t U = remove_cvref_t T := by
  simp only [plain_same_v, is_same_v, decide_eq_true_eq]
  exact eq_comm

theorem remove_cvref_base_iff (T : CType) (b : Builtin) :
    remove_cvref_t T = CType.base Qual.none b ↔
      ∃ q, T = CType.base q b ∨ T = CType.lref (CType.base q b) ∨
        T = CType.rref (CType.base q b) := by
  have hcv : ∀ t : CType, remove_cv_t t = CType.base Qual.none b ↔ ∃ q, t = CType.base q b := by
    intro t
    cases t with
    | base q c => simp [remove_cv_t]
    | ptr q t2 => simp [remove_cv_t]
    | arr n e => simp [remove_cv_t]
    | lref t2 => simp [remove_cv_t]
    | rref t2 => simp [remove_cv_t]
  cases T with
  | base q c =>
    have h := hcv (CType.base q c)
    simpa [remove_cvref_t, remove_reference_t] using h
  | ptr q t => simp [remove_cvref_t, remove_reference_t, remove_cv_t]
  | arr n e => simp [remove_cvref_t, remove_reference_t, remove_cv_t]
  | lref t =>
    have h := hcv t
    simpa [remove_cvref_t, remove_reference_t] using h
  | rref t =>
    have h := hcv t
    simpa [remove_cvref_t, remove_reference_t] using h

/-- C5, as stated, fails: `volatile int` with reference and `const` stripped
is still `volatile int`, not `int`, and `match` accepts it for `d`. -/
theorem match_volatile_counterexample :
    remove_const_t (remove_reference_t (CType.base Qual.volatile Builtin.int)) ≠ CType.int ∧
      match_ (CType.base Qual.volatile Builtin.int) 'd' = true := by
  decide

/-- C5, amended: `match<T>('d')`, `match<T>('c')` and `match<T>('f')` are true
exactly when `T` without its reference and its top-level `const` and
`volatile` (`remove_cvref_t`) is `int`, `char` and `double`: when `T` is that
type under any qualifiers, or an lvalue or rvalue reference to it. For `d`
the types `unsigned int`, `short`, `long`, `char` and `double` are refused,
whatever their qualifiers. -/
theorem match_strips_cvref (T : CType) :
    (match_ T 'd' = true ↔ remove_cvref_t T = CType.int) ∧
      (match_ T 'c' = true ↔ remove_cvref_t T = CType.char) ∧
      (match_ T 'f' = true ↔ remove_cvref_t T = CType.double) ∧
      (match_ T 'd' = true ↔ ∃ q, T = CType.base q Builtin.int ∨
        T = CType.lref (CType.base q Builtin.int) ∨ T = CType.rref (CType.base q Builtin.int)) ∧
      (match_ T 'c' = true ↔ ∃ q, T = CType.base q Builtin.char ∨
        T = CType.lref (CType.base q Builtin.char) ∨
        T = CType.rref (CType.base q Builtin.char)) ∧
      (match_ T 'f' = true ↔ ∃ q, T = CType.base q Builtin.double ∨
        T = CType.lref (CType.base q Builtin.double) ∨
        T = CType.rref (CType.base q Builtin.double)) ∧
      (match_ (CType.lref (CType.base Qual.const Builtin.int)) 'd' = true ∧
        match_ (CType.rref CType.int) 'd' = true ∧
        match_ (CType.base ⟨true, true⟩ Builtin.int) 'd' = true ∧
        match_ (CType.ptr Qual.none CType.int) 'd' = false ∧
        match_ (CType.arr (some 1) CType.int) 'd' = false) ∧
      (∀ q : Qual, match_ (CType.base q Builtin.unsignedInt) 'd' = false ∧
        match_ (CType.base q Builtin.short) 'd' = false ∧
        match_ (CType.base q Builtin.long) 'd' = false ∧
        match_ (CType.base q Builtin.char) 'd' = false ∧
        match_ (CType.base q Builtin.double) 'd' = false) := by
  have hd : match_ T 'd' = plain_same_v CType.int T := by
    simp [match_]
  have hc : match_ T 'c' = plain_same_v CType.char T := by
    simp [match_]
  have hf : match_ T 'f' = plain_same_v CType.double T := by
    simp [match_]
  have hdi : match_ T 'd' = true ↔ remove_cvref_t T = CType.int := by
    rw [hd, plain_same_v_iff]; rfl
  have hci : match_ T 'c' = true ↔ remove_cvref_t T = CType.char := by
    rw [hc, plain_same_v_iff]; rfl
  have hfi : match_ T 'f' = true ↔ remove_cvref_t T = CType.double := by
    rw [hf, plain_same_v_iff]; rfl
  refine ⟨hdi, hci, hfi, ?_, ?_, ?_, by decide, ?_⟩
  · rw [hdi]; exact remove_cvref_base_iff T Builtin.int
  · rw [hci]; exact remove_cvref_base_iff T Builtin.char
  · rw [hfi]; exact remove_cvref_base_iff T Builtin.double
  · intro q
    simp [match_, plain_same_v, is_same_v, remove_cvref_t, remove_reference_t, remove_cv_t,
      CType.int]

/-- C6, as the specification words it, fails: `const char*` is a pointer to
a character and `char (&)[6]`, stripped, is a character array, and `match`
refuses both for `s`. -/
theorem match_string_counterexample :
    (specStringArgument CType.constCharPtr = true ∧ match_ CType.constCharPtr 's' = false) ∧
      (specStringArgument (CType.lref (CType.arr (some 6) CType.char)) = true ∧
        match_ (CType.lref (CType.arr (some 6) CType.char)) 's' = false) := by
  decide

/-- C6, amended: `match<T>('s')` is true exactly when `T` itself is an array
whose element type, with all extents, reference and top-level qualifiers
removed, is `char`, or `T` itself is a pointer, with any top-level qualifier,
to unqualified `char`. -/
theorem match_string_iff (T : CType) :
    match_ T 's' = true ↔
      (is_array_v T = true ∧ remove_cvref_t (remove_all_extents_t T) = CType.char) ∨
        (∃ q, T = CType.ptr q CType.char) := by
  have hs : match_ T 's' =
      ((plain_same_v CType.char (remove_all_extents_t T) && is_array_v T) ||
        (plain_same_v CType.charPtr (remove_all_extents_t T) && is_pointer_v T)) := by
    simp [match_]
  rw [hs, Bool.or_eq_true, Bool.and_eq_true, Bool.and_eq_true, plain_same_v_iff,
    plain_same_v_iff]
  constructor
  · rintro (⟨h1, h2⟩ | ⟨h1, h2⟩)
    · exact Or.inl ⟨h2, h1⟩
    · right
      cases T with
      | ptr q pointee =>
        refine ⟨q, ?_⟩
        simp only [remove_all_extents_t, remove_cvref_t, remove_reference_t, remove_cv_t,
          CType.charPtr, CType.ptr.injEq] at h1
        rw [h1.2]
      | base q b => simp [is_pointer_v] at h2
      | arr n e => simp [is_pointer_v] at h2
      | lref t => simp [is_pointer_v] at h2
      | rref t => simp [is_pointer_v] at h2
  · rintro (⟨h1, h2⟩ | ⟨q, rfl⟩)
    · exact Or.inl ⟨h2, h1⟩
    · right
      exact ⟨rfl, rfl⟩

/-- C7: `match` is a function of the specifier character and the type alone,
with a value for every pair, and that value is false for every character
other than `d`, `c`, `f` and `s`. -/
theorem match_unsupported (T : CType) (c : Char)
    (hd : c ≠ 'd') (hc : c ≠ 'c') (hf : c ≠ 'f') (hs : c ≠ 's') :
    match_ T c = false ∧
      ∀ (U : CType) (x : Char), ∃ b : Bool, match_ U x = b ∧
        ∀ (U2 : CType) (x2 : Char), U2 = U → x2 = x → match_ U2 x2 = b := by
  refine ⟨by simp [match_, hd, hc, hf, hs], ?_⟩
  intro U x
  exact ⟨match_ U x, rfl, fun U2 x2 hU hx => by rw [hU, hx]⟩

/-- C7 at the character `x` and the type `int`. -/
theorem match_unsupported_witness : match_ CType.int 'x' = false :=
  (match_unsupported CType.int 'x' (by decide) (by decide) (by decide) (by decide)).1

/-! ## The descriptor -/

theorem percentPositions_length (l : List Char) :
    (percentPositions l).length = l.count '%' := by
  induction l using List.reverseRecOn with
  | nil => rfl
  | append_singleton l c ih =>
    have hfilter : (List.range l.length).filter (fun i => decide ((l ++ [c])[i]? = some '%')) =
        (List.range l.length).filter (fun i => decide (l[i]? = some '%')) := by
      apply List.filter_congr
      intro i hi
      rw [List.mem_range] at hi
      rw [List.getElem?_append_left hi]
    have hlast : (l ++ [c])[l.length]? = some c := by
      rw [List.getElem?_append_right (Nat.le_refl _)]; simp
    simp only [percentPositions] at ih
    simp only [percentPositions, List.length_append, List.length_singleton, List.range_succ,
      List.filter_append, hfilter, ih, List.count_append, List.filter_cons, List.filter_nil, hlast]
    by_cases hc : c = '%'
    · subst hc; simp
    · have h2 : (c == '%') = false := by simpa using hc
      simp [hc, List.count_cons, h2]

/-- C8: for a literal `s`, `numArgs` of its descriptor is the result of the count
over the stored data, terminator included, and equals the number of positions
of `s` that hold a percent sign: the terminator adds nothing and each percent
sign adds one, also in `%%`. -/
theorem numArgs_counts_percent (s : List Char) :
    (FormatString.mk (fixed_string.ctor (literal s))).numArgs = ranges_count (s ++ [NUL]) '%' ∧
      (FormatString.mk (fixed_string.ctor (literal s))).numArgs = (percentPositions s).length ∧
      (FormatString.mk (fixed_string.ctor (literal s))).numArgs = s.count '%' ∧
      (FormatString.mk (fixed_string.ctor (literal "%%".toList))).numArgs = 2 ∧
      (FormatString.mk (fixed_string.ctor (literal "%s, %s".toList))).numArgs = 2 ∧
      (FormatString.mk (fixed_string.ctor (literal "".toList))).numArgs = 0 := by
  have hnum : (FormatString.mk (fixed_string.ctor (literal s))).numArgs = s.count '%' :=
    numArgs_operator_fs s
  refine ⟨?_, ?_, hnum, by decide, by decide, by decide⟩
  · have hdata : (FormatString.mk (fixed_string.ctor (literal s))).fmt.data = literal s :=
      operator_fs_data s
    rw [FormatString.numArgs, hdata, literal]
  · rw [hnum, percentPositions_length]

/-! ## The scan beyond the last percent sign -/

theorem dropWhile_notPercent_count (l t : List Char) (d : Char)
    (h : l.dropWhile notPercent = d :: t) : l.count '%' = t.count '%' + 1 := by
  induction l with
  | nil => simp at h
  | cons c rest ih =>
    by_cases hc : c = '%'
    · subst hc
      have hdw : List.dropWhile notPercent ('%' :: rest) = '%' :: rest := by
        simp [List.dropWhile_cons, notPercent]
      rw [hdw] at h
      simp only [List.cons.injEq] at h
      rw [List.count_cons_self, h.2]
    · have hdw : List.dropWhile notPercent (c :: rest) = List.dropWhile notPercent rest := by
        simp [List.dropWhile_cons, notPercent, hc]
      rw [hdw] at h
      rw [count_other_cons c rest hc]
      exact ih h

theorem afterPercents_none (I : Nat) (l : List Char) (h : l.count '%' ≤ I) :
    afterPercents (I + 1) l = none := by
  induction I generalizing l with
  | zero =>
    rw [afterPercents]
    cases hdw : l.dropWhile notPercent with
    | nil => rfl
    | cons d t =>
      have := dropWhile_notPercent_count l t d hdw
      omega
  | succ J ih =>
    rw [afterPercents]
    cases hdw : l.dropWhile notPercent with
    | nil => rfl
    | cons d t =>
      have hcount := dropWhile_notPercent_count l t d hdw
      exact ih t (by omega)

/-- With fewer than `I + 1` percent signs the loop of `get<I>` has no bound to
stop at: `find` returns `end` and the iterator is moved beyond it. -/
theorem get_moves_past_end (I : Nat) (chars : List Char) (h : chars.count '%' ≤ I) :
    get (Int.ofNat I) chars = Except.error ScanFault.incrementPastEnd := by
  rw [get_eq_readResult, afterPercents_none I chars h]
  rfl

/-- C9, the code at the failing input: on `"abc"`, which has no percent sign,
`get<0>` moves its iterator beyond `end`; on `"%d"`, `get<1>` does the same
after the one percent sign. No check stops the scan. -/
theorem get_unchecked_past_end :
    get 0 (literal "abc".toList) = Except.error ScanFault.incrementPastEnd ∧
      find (literal "abc".toList) 0 (literal "abc".toList).length = (literal "abc".toList).length ∧
      get 1 (literal "%d".toList) = Except.error ScanFault.incrementPastEnd :=
  ⟨get_moves_past_end 0 _ (by decide), by decide, get_moves_past_end 1 _ (by decide)⟩

/-! ## Further lemmas on the scan and the fold -/

theorem match_default (T : CType) (c : Char)
    (hd : c ≠ 'd') (hc : c ≠ 'c') (hf : c ≠ 'f') (hs : c ≠ 's') : match_ T c = false := by
  simp [match_, hd, hc, hf, hs]

theorem specifiers_length_of_last (l : List Char) (hlast : l.getLast? ≠ some '%') :
    (specifiers l).length = l.count '%' := by
  induction l with
  | nil => simp [specifiers]
  | cons c rest ih =>
    by_cases hc : c = '%'
    · subst hc
      cases rest with
      | nil => simp at hlast
      | cons d rest2 =>
        rw [List.getLast?_cons_cons] at hlast
        rw [specifiers_percent_cons, List.count_cons_self, List.length_cons, ih hlast]
    · rw [specifiers_other_cons c rest hc, count_other_cons c rest hc]
      cases rest with
      | nil => simp [specifiers]
      | cons d rest2 =>
        rw [List.getLast?_cons_cons] at hlast
        exact ih hlast

theorem get_of_lt (I : Nat) (str : List Char) (hI : I < (specifiers str).length) :
    get (Int.ofNat I) str = Except.ok ((specifiers str).get ⟨I, hI⟩) :=
  (get_eq_ok_iff _ _ _).2 (by simp [List.getElem?_eq_getElem hI])

theorem dropWhile_notPercent_split (l t : List Char) (d : Char)
    (h : l.dropWhile notPercent = d :: t) :
    ∃ tw, l = tw ++ '%' :: t ∧ tw.count '%' = 0 := by
  induction l with
  | nil => simp at h
  | cons c rest ih =>
    by_cases hc : c = '%'
    · subst hc
      have hdw : List.dropWhile notPercent ('%' :: rest) = '%' :: rest := by
        simp [List.dropWhile_cons, notPercent]
      rw [hdw] at h
      simp only [List.cons.injEq] at h
      exact ⟨[], by simp [h.2], rfl⟩
    · have hdw : List.dropWhile notPercent (c :: rest) = List.dropWhile notPercent rest := by
        simp [List.dropWhile_cons, notPercent, hc]
      rw [hdw] at h
      obtain ⟨tw, htw, hcount⟩ := ih h
      refine ⟨c :: tw, by simp [htw], ?_⟩
      rw [count_other_cons c tw hc]; exact hcount

theorem afterPercents_split (k : Nat) (l t : List Char)
    (h : afterPercents (k + 1) l = some t) :
    ∃ pre, l = pre ++ '%' :: t ∧ pre.count '%' = k := by
  induction k generalizing l with
  | zero =>
    rw [afterPercents] at h
    cases hdw : l.dropWhile notPercent with
    | nil => rw [hdw] at h; simp at h
    | cons d t0 =>
      rw [hdw] at h
      simp only [afterPercents, Option.some.injEq] at h
      subst h
      exact dropWhile_notPercent_split l t0 d hdw
  | succ j ih =>
    rw [afterPercents] at h
    cases hdw : l.dropWhile notPercent with
    | nil => rw [hdw] at h; simp at h
    | cons d t0 =>
      rw [hdw] at h
      obtain ⟨tw, htw, hcount⟩ := dropWhile_notPercent_split l t0 d hdw
      obtain ⟨pre, hpre, hk⟩ := ih t0 h
      refine ⟨tw ++ '%' :: pre, ?_, ?_⟩
      · rw [htw, hpre]; simp
      · rw [List.count_append, List.count_cons_self, hcount, hk]; omega

theorem afterPercents_some (k : Nat) (l : List Char) (h : k < l.count '%') :
    ∃ t, afterPercents (k + 1) l = some t := by
  induction k generalizing l with
  | zero =>
    rw [afterPercents]
    cases hdw : l.dropWhile notPercent with
    | nil =>
      have hall : ∀ x ∈ l, notPercent x = true := by
        simpa [List.dropWhile_eq_nil_iff] using hdw
      have hzero : l.count '%' = 0 := by
        rw [List.count_eq_zero]
        intro hmem
        have := hall '%' hmem
        simp [notPercent] at this
      omega
    | cons d t0 => exact ⟨t0, rfl⟩
  | succ j ih =>
    rw [afterPercents]
    cases hdw : l.dropWhile notPercent with
    | nil =>
      have hall : ∀ x ∈ l, notPercent x = true := by
        simpa [List.dropWhile_eq_nil_iff] using hdw
      have hzero : l.count '%' = 0 := by
        rw [List.count_eq_zero]
        intro hmem
        have := hall '%' hmem
        simp [notPercent] at this
      omega
    | cons d t0 =>
      have hcount := dropWhile_notPercent_count l t0 d hdw
      exact ih t0 (by omega)

theorem scanLoop_succ (str : List Char) (k s : Nat) :
    scanLoop str (k + 1) s =
      match scanLoop str k s with
      | Except.error e => Except.error e
      | Except.ok start =>
        if find str start str.length = str.length then
          Except.error ScanFault.incrementPastEnd
        else Except.ok (find str start str.length + 1) := by
  induction k generalizing s with
  | zero => simp [scanLoop]
  | succ j ih =>
    rw [scanLoop]
    by_cases hf : find str s str.length = str.length
    · simp [scanLoop, hf]
    · simp only [hf, if_false]
      rw [ih (find str s str.length + 1)]
      conv_rhs => rw [scanLoop]
      simp only [hf, if_false]

theorem scan_round (chars : List Char) (k : Nat) (hlast : chars.getLast? ≠ some '%')
    (hk : k < chars.count '%') :
    ∃ start p, scanLoop chars k 0 = Except.ok start ∧ find chars start chars.length = p ∧
      chars[p]? = some '%' ∧ p + 1 < chars.length ∧
      scanLoop chars (k + 1) 0 = Except.ok (p + 1) := by
  obtain ⟨t, ht⟩ := afterPercents_some k chars hk
  obtain ⟨pre, hpre, _⟩ := afterPercents_split k chars t ht
  have htne : t ≠ [] := by
    intro hnil
    rw [hnil] at hpre
    rw [hpre, List.getLast?_concat] at hlast
    exact hlast rfl
  have hlen : chars.length = pre.length + 1 + t.length := by
    rw [hpre]; simp; omega
  have htpos : 0 < t.length := List.length_pos.2 htne
  have hnext : scanLoop chars (k + 1) 0 = Except.ok (pre.length + 1) := by
    rw [scanLoop_eq, ht, scanResult, hlen]
    congr 1
    omega
  have hpercent : chars[pre.length]? = some '%' := by
    rw [hpre, List.getElem?_append_right (Nat.le_refl _)]; simp
  have hsucc := scanLoop_succ chars k 0
  rw [hnext] at hsucc
  cases hprev : scanLoop chars k 0 with
  | error e => rw [hprev] at hsucc; cases hsucc
  | ok start =>
    rw [hprev] at hsucc
    by_cases hf : find chars start chars.length = chars.length
    · simp only [hf, if_true] at hsucc
      cases hsucc
    · simp only [hf, if_false, Except.ok.injEq] at hsucc
      have hfind : find chars start chars.length = pre.length := by omega
      exact ⟨start, pre.length, rfl, hfind, hpercent, by omega, hnext⟩

theorem foldMatching_no_fault (str : List Char) (Ts : List CType) (I : Nat)
    (h : I + Ts.length ≤ (specifiers str).length) :
    ∃ b, foldMatching str I Ts = Except.ok b := by
  induction Ts generalizing I with
  | nil => exact ⟨true, rfl⟩
  | cons T rest ih =>
    have hI : I < (specifiers str).length := by
      simp only [List.length_cons] at h; omega
    rw [foldMatching_cons_ok str I T rest _ (get_of_lt I str hI)]
    by_cases hm : match_ T ((specifiers str).get ⟨I, hI⟩) = true
    · rw [hm, if_pos rfl]
      apply ih
      simp only [List.length_cons] at h; omega
    · have hmf : match_ T ((specifiers str).get ⟨I, hI⟩) = false := by simpa using hm
      rw [hmf]
      exact ⟨false, rfl⟩

theorem foldMatching_true_imp (str : List Char) (Ts : List CType) (I j : Nat) (T : CType)
    (h : foldMatching str I Ts = Except.ok true) (hT : Ts[j]? = some T) :
    ∃ c, get (Int.ofNat (I + j)) str = Except.ok c ∧ match_ T c = true := by
  induction Ts generalizing I j with
  | nil => simp at hT
  | cons U rest ih =>
    cases hg : get (Int.ofNat I) str with
    | error e =>
      rw [foldMatching, hg] at h
      cases h
    | ok c =>
      rw [foldMatching_cons_ok str I U rest c hg] at h
      by_cases hm : match_ U c = true
      · rw [hm, if_pos rfl] at h
        cases j with
        | zero =>
          simp only [List.getElem?_cons_zero, Option.some.injEq] at hT
          subst hT
          exact ⟨c, hg, hm⟩
        | succ k =>
          have hT2 : rest[k]? = some T := by simpa using hT
          obtain ⟨d, hd, hmd⟩ := ih (I + 1) k h hT2
          have : I + 1 + k = I + (k + 1) := by omega
          rw [this] at hd
          exact ⟨d, hd, hmd⟩
      · have hmf : match_ U c = false := by simpa using hm
        rw [hmf] at h
        cases h

theorem foldMatching_congr (str1 str2 : List Char) (Ts : List CType) (I : Nat)
    (h : ∀ J : Nat, get (Int.ofNat J) str1 = get (Int.ofNat J) str2) :
    foldMatching str1 I Ts = foldMatching str2 I Ts := by
  induction Ts generalizing I with
  | nil => rfl
  | cons T rest ih =>
    rw [foldMatching, foldMatching, h I]
    cases get (Int.ofNat I) str2 with
    | error e => rfl
    | ok c =>
      by_cases hm : match_ T c = true
      · simp only [hm, if_true]; exact ih (I + 1)
      · simp only [hm]; rfl

theorem count_literal (s : List Char) : (literal s).count '%' = s.count '%' := by
  have h : (NUL == '%') = false := by decide
  simp [literal, List.count_append, List.count_cons, h]

theorem get_literal (I : Nat) (s : List Char) :
    get (Int.ofNat I) (literal s) =
      match (specifiers (literal s))[I]? with
      | some c => Except.ok c
      | none => Except.error ScanFault.incrementPastEnd := by
  by_cases hI : I < (specifiers (literal s)).length
  · rw [get_of_lt I _ hI, List.getElem?_eq_getElem hI]
    rfl
  · rw [List.getElem?_eq_none (by omega)]
    apply get_moves_past_end
    rw [count_literal, ← specifiers_literal_length]
    omega

theorem specifiers_at_position (l : List Char) (p : Nat) (c : Char)
    (hp : l[p]? = some '%') (hc : l[p + 1]? = some c) :
    (specifiers l)[(l.take p).count '%']? = some c := by
  have hnext : p + 1 < l.length := by
    by_contra hcon
    rw [List.getElem?_eq_none (by omega)] at hc
    cases hc
  have hplt : p < l.length := by omega
  have hpc : l[p] = '%' := by
    rw [List.getElem?_eq_getElem hplt] at hp
    exact Option.some.inj hp
  have hcc : l[p + 1] = c := by
    rw [List.getElem?_eq_getElem hnext] at hc
    exact Option.some.inj hc
  have hsplit : l = l.take p ++ '%' :: c :: l.drop (p + 2) := by
    conv_lhs => rw [← List.take_append_drop p l]
    rw [List.drop_eq_getElem_cons hplt, hpc, List.drop_eq_getElem_cons hnext, hcc]
  have hafter : afterPercents ((l.take p).count '%' + 1) l = some (c :: l.drop (p + 2)) := by
    conv_lhs => rw [hsplit]
    have htake : List.take p (List.take p l ++ '%' :: c :: l.drop (p + 2)) = l.take p := by
      rw [← hsplit]
    rw [htake]
    exact afterPercents_append _ _
  rw [specifiers_getElem_opt, hafter]
  rfl

/-! ## The unchecked overload and the literal operator -/

/-- C12: the descriptor the literal operator `_fs` yields for a literal `s` is
the explicitly constructed `FormatString<fixed_string(s)>{}`: the same stored
characters, the same `numArgs`, the same converted character data and, for
every argument list, the same result of the checked `print`. The operator
tests nothing: it yields a descriptor also for `"%d"`, which the checked
`print` then refuses for a `double`. -/
theorem operator_fs_eq_explicit (s : List Char) :
    operator_fs s = FormatString.mk (fixed_string.ctor (literal s)) ∧
      (operator_fs s).fmt.data = literal s ∧
      (FormatString.mk (fixed_string.ctor (literal s))).fmt.data = literal s ∧
      (operator_fs s).numArgs = (FormatString.mk (fixed_string.ctor (literal s))).numArgs ∧
      (operator_fs s).toPointer =
        (FormatString.mk (fixed_string.ctor (literal s))).toPointer ∧
      (∀ (V : Type) (ts : List (Arg V)),
        print (operator_fs s) ts = print (FormatString.mk (fixed_string.ctor (literal s))) ts) ∧
      (print (operator_fs "%s, %s".toList)
          [Arg.ofExpr (CType.arr (some 6) CType.constChar) "Hello",
           Arg.ofExpr (CType.arr (some 6) CType.constChar) "C++20"] =
        Except.ok [⟨literal "%s, %s".toList,
          [Arg.ofExpr (CType.arr (some 6) CType.constChar) "Hello",
           Arg.ofExpr (CType.arr (some 6) CType.constChar) "C++20"]⟩]) ∧
      ((operator_fs "%d".toList).fmt.data = literal "%d".toList ∧
        print (operator_fs "%d".toList) [Arg.ofExpr CType.double "3.14"] =
          Except.error Diagnosis.SpecifierTypeMismatch) :=
  ⟨rfl, operator_fs_data s, operator_fs_data s, rfl, rfl, fun _ _ => rfl, rfl,
    by decide, rfl⟩

/-! ## The scan inside the data -/

/-- C13: in a character sequence whose last element is no percent sign, with
`n` percent signs, every scan `get<I>` with `I < n` stays inside the data:
in each of its `I + 1` rounds `find` returns the position `p` of a percent
sign before the end, the iterator stepped to `p + 1` is still before the
end, and the final read returns an element. With such data the checked
`print` never fails for a scan that left the data. -/
theorem scan_stays_inside (chars : List Char) (hlast : chars.getLast? ≠ some '%') :
    (∀ I : Nat, I < chars.count '%' →
      (∀ k : Nat, k ≤ I → ∃ start p, scanLoop chars k 0 = Except.ok start ∧
        find chars start chars.length = p ∧ chars[p]? = some '%' ∧ p + 1 < chars.length ∧
        scanLoop chars (k + 1) 0 = Except.ok (p + 1)) ∧
      (∃ start c, scanLoop chars (I + 1) 0 = Except.ok start ∧ start < chars.length ∧
        chars[start]? = some c ∧ get (Int.ofNat I) chars = Except.ok c)) ∧
      (∀ (V : Type) (ts : List (Arg V)) (e : ScanFault),
        print (FormatString.mk (fixed_string.mk chars)) ts ≠
          Except.error (Diagnosis.NotConstant e)) := by
  have hlen := specifiers_length_of_last chars hlast
  refine ⟨?_, ?_⟩
  · intro I hI
    refine ⟨fun k hk => scan_round chars k hlast (by omega), ?_⟩
    obtain ⟨_, p, _, _, _, hnext, hscan⟩ := scan_round chars I hlast hI
    have hIs : I < (specifiers chars).length := by omega
    refine ⟨p + 1, chars.get ⟨p + 1, hnext⟩, hscan, hnext, ?_, ?_⟩
    · simp [List.getElem?_eq_getElem hnext]
    · have hI1 : (Int.ofNat I + 1).toNat = I + 1 := by
        simp only [Int.ofNat_eq_coe]; omega
      rw [get, hI1, hscan]
      simp only [List.getElem?_eq_getElem hnext]
      rfl
  · intro V ts e hprint
    by_cases hnum : (FormatString.mk (fixed_string.mk chars)).numArgs = (packTypes ts).length
    · have hcount : (packTypes ts).length = chars.count '%' := by
        rw [← hnum, numArgs_eq_count]; rfl
      obtain ⟨b, hb⟩ := foldMatching_no_fault chars (packTypes ts) 0 (by omega)
      have hfold : IsMatching (FormatString.mk (fixed_string.mk chars)).fmt.data (packTypes ts) =
          Except.ok b := hb
      simp only [print, hnum, if_true, hfold] at hprint
      cases b <;> cases hprint
    · simp only [print, hnum, if_false] at hprint
      cases hprint

/-- C13 at the stored characters of `"%s, %s"`: two percent signs, the last
element is the terminator. -/
theorem scan_stays_inside_witness :
    (literal "%s, %s".toList).getLast? ≠ some '%' ∧
      (∃ start c, scanLoop (literal "%s, %s".toList) 2 0 = Except.ok start ∧
        start < (literal "%s, %s".toList).length ∧
        (literal "%s, %s".toList)[start]? = some c ∧
        get (Int.ofNat 1) (literal "%s, %s".toList) = Except.ok c) :=
  ⟨by decide, ((scan_stays_inside (literal "%s, %s".toList) (by decide)).1 1 (by decide)).2⟩

/-! ## Format strings and arguments the checked `print` never accepts -/

theorem print_rejected_of_follower {V : Type} (fmt : FormatString) (ts : List (Arg V))
    (p : Nat) (c : Char)
    (hp : fmt.fmt.data[p]? = some '%') (hc : fmt.fmt.data[p + 1]? = some c)
    (hall : ∀ T, match_ T c = false) :
    (fmt.fmt.data.count '%' ≠ ts.length ∧
        print fmt ts = Except.error Diagnosis.ArgumentCountMismatch) ∨
      (fmt.fmt.data.count '%' = ts.length ∧
        get (Int.ofNat ((fmt.fmt.data.take p).count '%')) fmt.fmt.data = Except.ok c ∧
        print fmt ts = Except.error Diagnosis.SpecifierTypeMismatch) := by
  have hspec := specifiers_at_position fmt.fmt.data p c hp hc
  have hget := (get_eq_ok_iff _ _ _).2 hspec
  by_cases hcount : fmt.fmt.data.count '%' = ts.length
  · right
    refine ⟨hcount, hget, ?_⟩
    have hlt : (fmt.fmt.data.take p).count '%' < (packTypes ts).length := by
      have h1 : (fmt.fmt.data.take p).count '%' < (specifiers fmt.fmt.data).length := by
        by_contra hcon
        rw [List.getElem?_eq_none (by omega)] at hspec
        cases hspec
      have h2 := specifiers_length_le fmt.fmt.data
      rw [packTypes_length]; omega
    have hT : (packTypes ts)[(fmt.fmt.data.take p).count '%']? =
        some ((packTypes ts).get ⟨_, hlt⟩) := by
      simp [List.getElem?_eq_getElem hlt]
    have hfold : IsMatching fmt.fmt.data (packTypes ts) = Except.ok false := by
      rw [IsMatching]
      exact foldMatching_false _ _ 0 _ c _ hT (by simpa using hget) (hall _)
    have hnum : fmt.numArgs = (packTypes ts).length := by
      rw [numArgs_eq_count, packTypes_length]; exact hcount
    simp only [print, hnum, if_true, hfold]
  · left
    refine ⟨hcount, ?_⟩
    have hnum : ¬ fmt.numArgs = (packTypes ts).length := by
      rw [numArgs_eq_count, packTypes_length]; exact hcount
    simp only [print, hnum, if_false]

/-- C14: when in a literal `s` some percent sign is immediately followed by a
character `c` other than `d`, `c`, `f` and `s` (another percent sign, a digit,
the terminator), `match` is false for `c` and every type and the checked
`print` is rejected for every argument list: by the count assertion when the
count differs, else by the type assertion, the scan for that percent sign
returning `c`. So no literal that contains `%%` passes the checked `print`. -/
theorem print_rejects_unsupported_follower {V : Type} (s : List Char) (ts : List (Arg V))
    (p : Nat) (c : Char)
    (hp : (literal s)[p]? = some '%') (hc : (literal s)[p + 1]? = some c)
    (hd : c ≠ 'd') (hcc : c ≠ 'c') (hf : c ≠ 'f') (hs : c ≠ 's') :
    (∀ T, match_ T c = false) ∧
      ((s.count '%' ≠ ts.length ∧
          print (operator_fs s) ts = Except.error Diagnosis.ArgumentCountMismatch) ∨
        (s.count '%' = ts.length ∧
          get (Int.ofNat (((literal s).take p).count '%')) (literal s) = Except.ok c ∧
          print (operator_fs s) ts = Except.error Diagnosis.SpecifierTypeMismatch)) ∧
      (∀ (a b : List Char) (us : List (Arg V)),
        print (operator_fs (a ++ '%' :: '%' :: b)) us =
            Except.error Diagnosis.ArgumentCountMismatch ∨
          print (operator_fs (a ++ '%' :: '%' :: b)) us =
            Except.error Diagnosis.SpecifierTypeMismatch) := by
  have hall : ∀ T, match_ T c = false := fun T => match_default T c hd hcc hf hs
  refine ⟨hall, ?_, ?_⟩
  · have hdata := operator_fs_data s
    have h := print_rejected_of_follower (operator_fs s) ts p c
      (by rw [hdata]; exact hp) (by rw [hdata]; exact hc) hall
    rw [hdata, count_literal] at h
    exact h
  · intro a b us
    have hdata := operator_fs_data (a ++ '%' :: '%' :: b)
    have hlit : literal (a ++ '%' :: '%' :: b) = a ++ '%' :: '%' :: (b ++ [NUL]) := by
      simp [literal]
    have h := print_rejected_of_follower (operator_fs (a ++ '%' :: '%' :: b)) us a.length '%'
      (by rw [hdata, hlit, List.getElem?_append_right (Nat.le_refl _)]; simp)
      (by rw [hdata, hlit, List.getElem?_append_right (Nat.le_succ _)]; simp)
      (fun T => match_default T '%' (by decide) (by decide) (by decide) (by decide))
    rcases h with ⟨_, h1⟩ | ⟨_, _, h2⟩
    · exact Or.inl h1
    · exact Or.inr h2

/-- C14 at `"%5d"` with one `int` argument and at `"100%"` with no argument. -/
theorem print_rejects_unsupported_follower_witness :
    print (operator_fs "%5d".toList) [Arg.ofExpr CType.int "42"] =
        Except.error Diagnosis.SpecifierTypeMismatch ∧
      print (operator_fs "100%".toList) ([] : List (Arg String)) =
        Except.error Diagnosis.ArgumentCountMismatch := by
  have h1 := (print_rejects_unsupported_follower "%5d".toList [Arg.ofExpr CType.int "42"] 0 '5'
    (by decide) (by decide) (by decide) (by decide) (by decide) (by decide)).2.1
  have h2 := (print_rejects_unsupported_follower "100%".toList ([] : List (Arg String)) 3 NUL
    (by decide) (by decide) (by decide) (by decide) (by decide) (by decide)).2.1
  refine ⟨?_, ?_⟩
  · rcases h1 with ⟨hne, _⟩ | ⟨_, _, h⟩
    · exact absurd (by decide) hne
    · exact h
  · rcases h2 with ⟨_, h⟩ | ⟨heq, _, _⟩
    · exact h
    · exact absurd heq (by decide)

theorem match_pointer_iff (q : Qual) (pointee : CType) :
    match_ (CType.ptr q pointee) 's' = true ↔ pointee = CType.char := by
  have hs : match_ (CType.ptr q pointee) 's' =
      ((plain_same_v CType.char (remove_all_extents_t (CType.ptr q pointee)) &&
          is_array_v (CType.ptr q pointee)) ||
        (plain_same_v CType.charPtr (remove_all_extents_t (CType.ptr q pointee)) &&
          is_pointer_v (CType.ptr q pointee))) := by
    simp [match_]
  rw [hs]
  simp [is_array_v, is_pointer_v, plain_same_v, is_same_v, remove_all_extents_t, remove_cvref_t,
    remove_reference_t, remove_cv_t, CType.charPtr, eq_comm]

theorem match_pointer_to_const (q : Qual) (v : Bool) (c : Char) :
    match_ (CType.ptr q (CType.base ⟨true, v⟩ Builtin.char)) c = false := by
  by_cases hs : c = 's'
  · subst hs
    have h := match_pointer_iff q (CType.base ⟨true, v⟩ Builtin.char)
    have hne : CType.base ⟨true, v⟩ Builtin.char ≠ CType.char := by
      simp [CType.char, Qual.none]
    cases hm : match_ (CType.ptr q (CType.base ⟨true, v⟩ Builtin.char)) 's' with
    | false => rfl
    | true => exact absurd (h.1 hm) hne
  · simp [match_, hs, plain_same_v, is_same_v, remove_cvref_t, remove_reference_t, remove_cv_t,
      CType.int, CType.char, CType.double]

/-- C15: `match<const char*>('s')` is false while `match<char*>('s')` and
`match<char* const>('s')` are true; for `s` a pointer type is accepted exactly
when its pointee is unqualified `char`; and a checked `print` with an argument
of type pointer to `const char` is never accepted, whatever the format string:
where that argument stands for a specifier `s` the call is rejected by the count
or by the type assertion. -/
theorem match_pointer_to_const_char {V : Type} (fmt : FormatString) (ts : List (Arg V))
    (I : Nat) (q : Qual) (v : Bool)
    (hT : (packTypes ts)[I]? = some (CType.ptr q (CType.base ⟨true, v⟩ Builtin.char))) :
    match_ CType.constCharPtr 's' = false ∧
      match_ CType.charPtr 's' = true ∧
      match_ (CType.ptr Qual.const CType.char) 's' = true ∧
      (∀ (q2 : Qual) (pointee : CType),
        match_ (CType.ptr q2 pointee) 's' = true ↔ pointee = CType.char) ∧
      (∀ calls, print fmt ts ≠ Except.ok calls) ∧
      (get (Int.ofNat I) fmt.fmt.data = Except.ok 's' →
        print fmt ts = Except.error Diagnosis.ArgumentCountMismatch ∨
          print fmt ts = Except.error Diagnosis.SpecifierTypeMismatch) := by
  refine ⟨by decide, by decide, by decide, match_pointer_iff, ?_, ?_⟩
  · intro calls hprint
    by_cases hnum : fmt.numArgs = (packTypes ts).length
    · cases hfold : IsMatching fmt.fmt.data (packTypes ts) with
      | error e =>
        simp only [print, hnum, if_true, hfold] at hprint
        cases hprint
      | ok b =>
        cases b with
        | false =>
          simp only [print, hnum, if_true, hfold] at hprint
          cases hprint
        | true =>
          rw [IsMatching] at hfold
          obtain ⟨c, _, hm⟩ := foldMatching_true_imp _ _ 0 I _ hfold hT
          rw [match_pointer_to_const] at hm
          cases hm
    · simp only [print, hnum, if_false] at hprint
      cases hprint
  · intro hget
    by_cases hnum : fmt.numArgs = (packTypes ts).length
    · right
      have hfold : IsMatching fmt.fmt.data (packTypes ts) = Except.ok false := by
        rw [IsMatching]
        exact foldMatching_false _ _ 0 I 's' _ hT (by simpa using hget)
          (match_pointer_to_const q v 's')
      simp only [print, hnum, if_true, hfold]
    · left
      simp only [print, hnum, if_false]

/-- C15 at `print("%s"_fs, p)` for `p` of type `const char*`. -/
theorem match_pointer_to_const_char_witness :
    print (operator_fs "%s".toList) [Arg.ofExpr CType.constCharPtr "p"] =
      Except.error Diagnosis.SpecifierTypeMismatch := by
  have h := (match_pointer_to_const_char (operator_fs "%s".toList)
    [Arg.ofExpr CType.constCharPtr "p"] 0 Qual.none false (by decide)).2.2.2.2.2 (by decide)
  rcases h with h | h
  · exact absurd h (by intro hc; cases hc)
  · exact h

/-! ## No argument, and what the decision depends on -/

/-- C16: with an empty pack `IsMatching` is true for every character sequence and
makes no scan (it is true also where every scan leaves the data); so the
checked `print` without arguments is accepted exactly when the stored string
has no percent sign, and then makes one call of `printf` with the string and
no argument. -/
theorem print_no_arguments (fmt : FormatString) :
    (∀ str : List Char, IsMatching str [] = Except.ok true) ∧
      (get 0 ['%'] = Except.error ScanFault.dereferenceEnd ∧
        IsMatching ['%'] [] = Except.ok true) ∧
      (∀ V : Type, (∃ calls, print fmt ([] : List (Arg V)) = Except.ok calls) ↔
        fmt.fmt.data.count '%' = 0) ∧
      (∀ V : Type, fmt.fmt.data.count '%' = 0 →
        print fmt ([] : List (Arg V)) = Except.ok [⟨fmt.fmt.data, []⟩]) ∧
      (∀ V : Type, fmt.fmt.data.count '%' ≠ 0 →
        print fmt ([] : List (Arg V)) = Except.error Diagnosis.ArgumentCountMismatch) := by
  have hok : ∀ V : Type, fmt.fmt.data.count '%' = 0 →
      print fmt ([] : List (Arg V)) = Except.ok [⟨fmt.fmt.data, []⟩] := by
    intro V h0
    have hnum : fmt.numArgs = (packTypes ([] : List (Arg V))).length := by
      rw [numArgs_eq_count, h0]; rfl
    have hfold : IsMatching fmt.fmt.data (packTypes ([] : List (Arg V))) = Except.ok true := rfl
    simp only [print, hnum, if_true, hfold, FormatString.toPointer]
  have hbad : ∀ V : Type, fmt.fmt.data.count '%' ≠ 0 →
      print fmt ([] : List (Arg V)) = Except.error Diagnosis.ArgumentCountMismatch := by
    intro V h0
    have hnum : ¬ fmt.numArgs = (packTypes ([] : List (Arg V))).length := by
      rw [numArgs_eq_count]; exact h0
    simp only [print, hnum, if_false]
  refine ⟨fun _ => rfl, ⟨by decide, rfl⟩, ?_, hok, hbad⟩
  intro V
  constructor
  · rintro ⟨calls, hcalls⟩
    by_contra h0
    rw [hbad V h0] at hcalls
    cases hcalls
  · intro h0
    exact ⟨_, hok V h0⟩

/-- C17: for two literals whose percent signs are followed, from left to right,
by the same characters, and any arguments, the checked `print` takes the same
decision: `numArgs` and `IsMatching` agree, one call is accepted exactly when
the other is, and a rejected call has the same diagnosis. -/
theorem print_depends_on_specifiers {V : Type} (s1 s2 : List Char) (ts : List (Arg V))
    (h : specifiers (literal s1) = specifiers (literal s2)) :
    (operator_fs s1).numArgs = (operator_fs s2).numArgs ∧
      IsMatching (literal s1) (packTypes ts) = IsMatching (literal s2) (packTypes ts) ∧
      ((∃ calls, print (operator_fs s1) ts = Except.ok calls) ↔
        (∃ calls, print (operator_fs s2) ts = Except.ok calls)) ∧
      (∀ d, print (operator_fs s1) ts = Except.error d ↔
        print (operator_fs s2) ts = Except.error d) := by
  have hnum : (operator_fs s1).numArgs = (operator_fs s2).numArgs := by
    rw [numArgs_operator_fs, numArgs_operator_fs, ← specifiers_literal_length,
      ← specifiers_literal_length, h]
  have hfold : IsMatching (literal s1) (packTypes ts) = IsMatching (literal s2) (packTypes ts) := by
    rw [IsMatching, IsMatching]
    apply foldMatching_congr
    intro J
    rw [get_literal, get_literal, h]
  refine ⟨hnum, hfold, ?_, ?_⟩
  · simp only [print, operator_fs_data, hnum, hfold]
    by_cases hn : (operator_fs s2).numArgs = (packTypes ts).length
    · simp only [hn, if_true]
      cases IsMatching (literal s2) (packTypes ts) with
      | error e => simp
      | ok b => cases b <;> simp
    · simp [hn]
  · intro d
    simp only [print, operator_fs_data, hnum, hfold]
    by_cases hn : (operator_fs s2).numArgs = (packTypes ts).length
    · simp only [hn, if_true]
      cases IsMatching (literal s2) (packTypes ts) with
      | error e => simp
      | ok b => cases b <;> simp
    · simp [hn]

/-- C17 at `"%s, %s"` and `"%s%s"` with two string literals as arguments. -/
theorem print_depends_on_specifiers_witness :
    specifiers (literal "%s, %s".toList) = specifiers (literal "%s%s".toList) ∧
      ((∃ calls, print (operator_fs "%s, %s".toList)
          [Arg.ofExpr (CType.arr (some 6) CType.constChar) "Hello",
           Arg.ofExpr (CType.arr (some 6) CType.constChar) "C++20"] = Except.ok calls) ↔
        (∃ calls, print (operator_fs "%s%s".toList)
          [Arg.ofExpr (CType.arr (some 6) CType.constChar) "Hello",
           Arg.ofExpr (CType.arr (some 6) CType.constChar) "C++20"] = Except.ok calls)) :=
  ⟨by decide, (print_depends_on_specifiers "%s, %s".toList "%s%s".toList _ (by decide)).2.2.1⟩

/-! ## Overload resolution -/

/-- The three calls of `main` resolve as the source means them: the two with
a descriptor to the checked overload, the one with the buffer to the overload
taking `char*`. -/
theorem main_calls_resolve :
    resolve (FirstArg.descriptor (FormatString.mk (fixed_string.ctor (literal "%s, %s".toList))))
        [(⟨CType.arr (some 6) CType.constChar, true, "Hello"⟩ : ArgExpr String),
         ⟨CType.arr (some 6) CType.constChar, true, "C++20"⟩] = some Overload.checked ∧
      resolve (FirstArg.descriptor (operator_fs "%s, %s".toList))
        [(⟨CType.arr (some 6) CType.constChar, true, "Hello"⟩ : ArgExpr String),
         ⟨CType.arr (some 6) CType.constChar, true, "C++20"⟩] = some Overload.checked ∧
      resolve (FirstArg.buffer (literal "Hello, %s".toList))
        [(⟨CType.arr (some 6) CType.constChar, true, "C++20"⟩ : ArgExpr String)] =
        some Overload.buffer := by
  decide

end FixedString3
